import Mathlib

/-!
Verification of the board/piece simulation of a browser Tetris game.

The definitions below are a shallow embedding of the JavaScript source
(the full-featured variant with 7-bag queue, lock delay, wall kicks,
hard drop).  Matrices (the arena and piece shapes) are lists of lists of
naturals, 0 meaning an empty cell; positions are integers (pieces spawn
partially above the board at y = -1); times are rationals measured in
milliseconds.  The vertical position `pos.y` of the source only ever
holds integral values (it is initialised to -1 and mutated by integer
increments only), so it is embedded as an integer and the source's
`Math.floor` / `Math.round` around it are identities.
-/

namespace Tetris

/-- Number of board columns, source constant `COLS = 12`. -/
def COLS : Nat := 12

/-- Number of board rows, source constant `ROWS = 20`. -/
def ROWS : Nat := 20

/-- Lock delay in milliseconds, source constant `LOCK_DELAY = 500`. -/
def LOCK_DELAY : Rat := 500

/-- Soft drop gravity multiplier, source constant `SOFT_DROP_MULT = 20`. -/
def SOFT_DROP_MULT : Rat := 20

/-- Lookahead queue size, source constant `QUEUE_SIZE = 5`. -/
def QUEUE_SIZE : Nat := 5

/-- The seven piece kinds. -/
inductive Piece where
  | I | O | T | S | Z | J | L
deriving DecidableEq, Inhabited, Repr

/-- Source table `PIECE_IDS = { I:1, O:2, T:3, S:4, Z:5, J:6, L:7 }`. -/
def pieceId : Piece → Nat
  | .I => 1
  | .O => 2
  | .T => 3
  | .S => 4
  | .Z => 5
  | .J => 6
  | .L => 7

/-- Shape templates of `createPiece`, occupied cells marked 1. -/
def shapeOf : Piece → List (List Nat)
  | .T => [[0,1,0],[1,1,1],[0,0,0]]
  | .O => [[1,1],[1,1]]
  | .L => [[0,0,1],[1,1,1],[0,0,0]]
  | .J => [[1,0,0],[1,1,1],[0,0,0]]
  | .I => [[0,0,0,0],[1,1,1,1],[0,0,0,0],[0,0,0,0]]
  | .S => [[0,1,1],[1,1,0],[0,0,0]]
  | .Z => [[1,1,0],[0,1,1],[0,0,0]]

/-- The bag template string `"ILJOTSZ"` of `shuffleBag`. -/
def bagOrder : List Piece := [.I, .L, .J, .O, .T, .S, .Z]

/-- The spawn stamping loop of `spawnPlayer`: every occupied cell of the
shape template receives the piece identifier. -/
def stamp (t : Piece) : List (List Nat) :=
  (shapeOf t).map (List.map (fun v => if v ≠ 0 then pieceId t else v))

/-- Cell read `m[i][j]`, with 0 (empty) for out-of-range coordinates. -/
def getC (m : List (List Nat)) (i j : Nat) : Nat :=
  (m.getD i []).getD j 0

/-- Cell write `m[i][j] = v` (a no-op out of range, matching the guarded
writes of the source). -/
def setC (m : List (List Nat)) (i j : Nat) (v : Nat) : List (List Nat) :=
  m.set i ((m.getD i []).set j v)

/-- Source function `collide(arena, playerX, playerY, matrix)`: scans the
shape matrix and reports a collision when an occupied cell maps outside
the horizontal range, to or below the bottom, or onto a non-empty arena
cell at non-negative vertical coordinate. -/
def collide (arena : List (List Nat)) (px py : Int) (m : List (List Nat)) : Bool :=
  (List.range m.length).any fun y =>
    (List.range (m.getD y []).length).any fun x =>
      ((m.getD y []).getD x 0 != 0) &&
        (decide (px + x < 0) || decide ((COLS : Int) ≤ px + x) ||
         decide ((ROWS : Int) ≤ py + y) ||
         (decide (0 ≤ py + y) && (getC arena (py + y).toNat (px + x).toNat != 0)))

/-- The specification's description of `collide`: some occupied shape cell
maps outside `[0, COLS)` horizontally, at or below row `ROWS`, or onto a
non-empty board cell with non-negative vertical coordinate. -/
def collideSpec (arena : List (List Nat)) (px py : Int) (m : List (List Nat)) : Prop :=
  ∃ y x, y < m.length ∧ x < (m.getD y []).length ∧ (m.getD y []).getD x 0 ≠ 0 ∧
    (px + x < 0 ∨ (COLS : Int) ≤ px + x ∨ (ROWS : Int) ≤ py + y ∨
      (0 ≤ py + y ∧ getC arena (py + y).toNat (px + x).toNat ≠ 0))

/-- A matrix with `rows` rows that all have length `cols`. -/
def Rect (m : List (List Nat)) (rows cols : Nat) : Prop :=
  m.length = rows ∧ ∀ r ∈ m, r.length = cols

/-- A matrix with `n` rows that all have length `n`. -/
abbrev Square (m : List (List Nat)) (n : Nat) : Prop :=
  Rect m n n

/-- The destructuring swap of `rotateMatrix`:
`[matrix[x][y], matrix[y][x]] = [matrix[y][x], matrix[x][y]]`. -/
def swapC (m : List (List Nat)) (x y : Nat) : List (List Nat) :=
  let a := getC m x y
  let b := getC m y x
  setC (setC m x y b) y x a

/-- The index pairs visited by the transposition loop of `rotateMatrix`
(`for y; for x < y`), in loop order. -/
def transPairs (n : Nat) : List (Nat × Nat) :=
  (List.range n).flatMap fun y => (List.range y).map fun x => (x, y)

/-- The in-place transposition loop of `rotateMatrix`. -/
def transposeSwaps (m : List (List Nat)) : List (List Nat) :=
  (transPairs m.length).foldl (fun acc p => swapC acc p.1 p.2) m

/-- Source function `rotateMatrix(matrix, dir)`: transpose across the main
diagonal, then reverse each row (clockwise, `dir > 0`) or reverse the row
order (counter-clockwise). -/
def rotateMatrix (m : List (List Nat)) (dir : Int) : List (List Nat) :=
  let t := transposeSwaps m
  if dir > 0 then t.map List.reverse else t.reverse

/-- One guarded cell write of `mergeToArena`: an occupied shape cell is
stamped into the arena when its absolute coordinates are inside the board
(`ay >= 0 && ay < ROWS && ax >= 0 && ax < COLS` in the source). -/
def mergeCell (px py : Int) (r : List Nat) (y : Nat) (B : List (List Nat))
    (x : Nat) : List (List Nat) :=
  if r.getD x 0 ≠ 0 then
    if 0 ≤ py + y ∧ py + y < (ROWS : Int) ∧ 0 ≤ px + x ∧ px + x < (COLS : Int) then
      setC B (py + y).toNat (px + x).toNat (r.getD x 0)
    else B
  else B

/-- The inner `for x` loop of `mergeToArena` over one shape row. -/
def mergeRow (px py : Int) (m : List (List Nat)) (A : List (List Nat))
    (y : Nat) : List (List Nat) :=
  (List.range (m.getD y []).length).foldl (mergeCell px py (m.getD y []) y) A

/-- Source function `mergeToArena()`: writes every occupied shape cell whose
absolute coordinates are inside the board into the arena. -/
def mergeToArena (arena : List (List Nat)) (px py : Int) (m : List (List Nat)) :
    List (List Nat) :=
  (List.range m.length).foldl (mergeRow px py m) arena

/-- The fresh empty row `new Array(COLS).fill(0)` inserted by `sweep`. -/
def emptyRow : List Nat := List.replicate COLS 0

/-- The inner full-row test of `sweep`: the row scan `continue`s to the
next row exactly when some cell (strictly) equals 0, so a row counts as
full when no column below `COLS` holds an existing cell equal to 0. -/
def isFullRow (r : List Nat) : Bool :=
  (List.range COLS).all fun x => !(r[x]? == some 0)

/-- The row-clearing loop of `sweep`: examines row `n - 1` (bottom-up),
splices out a full row, unshifts a fresh empty row at the top and
re-examines the same index, counting clears.  The loop of the source is
unbounded; the fuel argument only bounds its iterations and
`sweepAux_eq` shows the fuel passed by `sweepArena` is never exhausted
on a board of `ROWS` rows. -/
def sweepAux : Nat → List (List Nat) → Nat → List (List Nat) × Nat
  | 0, A, _ => (A, 0)
  | _ + 1, A, 0 => (A, 0)
  | fuel + 1, A, n + 1 =>
    if isFullRow (A.getD n []) then
      let p := sweepAux fuel (emptyRow :: A.eraseIdx n) (n + 1)
      (p.1, p.2 + 1)
    else sweepAux fuel A n

/-- Source function `sweep()` (its row-clearing part): scans all rows from
the bottom upwards and returns the swept board together with the number of
cleared rows. -/
def sweepArena (A : List (List Nat)) : List (List Nat) × Nat :=
  sweepAux (2 * ROWS) A ROWS

/-- The destructuring swap `[bag[i], bag[j]] = [bag[j], bag[i]]` of
`shuffleBag`. -/
def swapL (l : List Piece) (i j : Nat) : List Piece :=
  let a := l.getD i default
  let b := l.getD j default
  (l.set i b).set j a

/-- The Fisher-Yates loop of `shuffleBag`: the loop variable runs from
`bag.length - 1` down to 1 and `j = Math.floor(Math.random() * (i + 1))`
(a uniform draw from `[0, i]`) is embedded as the head of the supplied
choice stream reduced modulo `i + 1`. -/
def fyLoop : List Piece → Nat → List Nat → List Piece
  | b, 0, _ => b
  | b, i + 1, cs => fyLoop (swapL b (i + 1) (cs.headD 0 % (i + 2))) i cs.tail

/-- Source function `shuffleBag()`: Fisher-Yates shuffle of the template
bag `"ILJOTSZ"`, one run of the loop consuming one list of random
choices. -/
def shuffleBag (cs : List Nat) : List Piece := fyLoop bagOrder 6 cs

/-- State of the bag randomizer `refillQueue`: the current bag, the
consumption index, and a counter selecting the next element of the
choice stream (the source draws from `Math.random()`; the embedding
threads an arbitrary stream of choices instead). -/
structure RandS where
  bag : List Piece
  idx : Nat
  ctr : Nat

/-- One draw of the randomizer (the body of the `while` loop of
`refillQueue`): refresh the bag via `shuffleBag` when it is uninitialised
or exhausted, then emit `bag[index++]`. -/
def nextPiece (rnd : Nat → List Nat) (r : RandS) : Piece × RandS :=
  let r' := if r.bag.length ≤ r.idx then RandS.mk (shuffleBag (rnd r.ctr)) 0 (r.ctr + 1) else r
  (r'.bag.getD r'.idx default, { r' with idx := r'.idx + 1 })

/-- The first `n` draws of the randomizer together with its final state. -/
def drawN (rnd : Nat → List Nat) : Nat → RandS → List Piece × RandS
  | 0, r => ([], r)
  | n + 1, r =>
    let pr := nextPiece rnd r
    let psr := drawN rnd n pr.2
    (pr.1 :: psr.1, psr.2)

/-- Initial randomizer state (`refillQueue.bag = null; refillQueue.index = 0`). -/
def initRand : RandS := ⟨[], 0, 0⟩

/-- The mutable state of the game: the arena, the player (position,
shape matrix, identifier), the lookahead queue with its bag randomizer
state, hold slot, scoring, and the timing flags/counters of the frame
loop.  The one-shot `setTimeout(resetGame, 800)` scheduled on game over
is modelled by the `resetTimer` field.  Times are rationals in
milliseconds.  `pos.y` only ever holds integral values in the source, so
it is an integer here and `Math.floor`/`Math.round` around it vanish. -/
@[ext]

structure GState where
  arena : List (List Nat)
  px : Int
  py : Int
  matrix : List (List Nat)
  pid : Nat
  queue : List Piece
  bag : List Piece
  bagIdx : Nat
  rndCtr : Nat
  holdPiece : Option Piece
  holdUsed : Bool
  score : Nat
  lines : Nat
  level : Nat
  lockTimer : Rat
  onGround : Bool
  dropAcc : Rat
  gameOver : Bool
  paused : Bool
  gravityCPS : Rat
  resetTimer : Option Rat
deriving DecidableEq

/-- Source function `moveOnce(dir)`: lateral move, reverted on collision;
on success the lock timer and ground flag are cleared. -/
def moveOnce (dir : Int) (s : GState) : GState :=
  if s.paused || s.gameOver then s
  else if collide s.arena (s.px + dir) s.py s.matrix then s
  else { s with px := s.px + dir, lockTimer := 0, onGround := false }

/-- The wall-kick offsets `[0, 1, -1, 2, -2]` tried by `rotatePlayer`. -/
def kickOffsets : List Int := [0, 1, -1, 2, -2]

/-- Source function `rotatePlayer(dir)`: rotate the matrix in place, then
try each kick offset in order; the first offset whose position does not
collide is kept (resetting lock timer and ground flag), and if every
offset collides the matrix and position are restored. -/
def rotatePlayer (dir : Int) (s : GState) : GState :=
  let rm := rotateMatrix s.matrix dir
  match kickOffsets.find? (fun k => !collide s.arena (s.px + k) s.py rm) with
  | some k => { s with matrix := rm, px := s.px + k, lockTimer := 0, onGround := false }
  | none => s

/-- The `mergeToArena()` call on the game state. -/
def mergeState (s : GState) : GState :=
  { s with arena := mergeToArena s.arena s.px s.py s.matrix }

/-- The line-clear score table `lineScores = [0, 40, 100, 300, 1200]` of
`sweep()`; the source reads `lineScores[cleared] || 0`, i.e. a lookup
defaulting to 0. -/
def lineScores : List Nat := [0, 40, 100, 300, 1200]

/-- Source function `sweep()` on the game state: clear full rows and, when
at least one row was cleared, award `lineScores[cleared] * (level + 1)`,
add the cleared count to `lines` and recompute `level = floor(lines / 10)`. -/
def sweepScore (s : GState) : GState :=
  let p := sweepArena s.arena
  if 0 < p.2 then
    { s with arena := p.1,
             score := s.score + lineScores.getD p.2 0 * (s.level + 1),
             lines := s.lines + p.2,
             level := (s.lines + p.2) / 10 }
  else { s with arena := p.1 }

/-- The body of the `while` loop of `refillQueue` on the game state. -/
def refillStep (rnd : Nat → List Nat) (s : GState) : GState :=
  let s' := if s.bag.length ≤ s.bagIdx then
      { s with bag := shuffleBag (rnd s.rndCtr), bagIdx := 0, rndCtr := s.rndCtr + 1 }
    else s
  { s' with queue := s'.queue ++ [s'.bag.getD s'.bagIdx default],
            bagIdx := s'.bagIdx + 1 }

/-- The `while (nextQueue.length < QUEUE_SIZE)` loop of `refillQueue`.
Each iteration appends exactly one element, so the loop runs at most
`QUEUE_SIZE` times; the fuel equal to `QUEUE_SIZE` is therefore never
exhausted. -/
def refillLoop (rnd : Nat → List Nat) : Nat → GState → GState
  | 0, s => s
  | fuel + 1, s =>
    if s.queue.length < QUEUE_SIZE then refillLoop rnd fuel (refillStep rnd s)
    else s

/-- Source function `refillQueue()`. -/
def refillQueue (rnd : Nat → List Nat) (s : GState) : GState :=
  refillLoop rnd QUEUE_SIZE s

/-- Source function `spawnPlayer()` (the final implementation installed by
`finalizeSetup`): refill, shift the next kind off the queue, refill again,
stamp the shape with the piece identifier, center horizontally
(`floor(COLS/2) - floor(width/2)`), spawn one row above the board
(`pos.y = -1`), clear the hold-used flag, lock timer and ground flag, and
on an immediately colliding spawn position set the game-over flag and
schedule the 800 ms reset. -/
def spawnPlayer (rnd : Nat → List Nat) (s : GState) : GState :=
  let s1 := refillQueue rnd s
  let t := s1.queue.headD default
  let s2 := { s1 with queue := s1.queue.tail }
  let s3 := refillQueue rnd s2
  let m := stamp t
  let s4 := { s3 with matrix := m, pid := pieceId t,
                      px := ((COLS / 2 : Nat) : Int) -
                        (((m.headD []).length / 2 : Nat) : Int),
                      py := -1, holdUsed := false, lockTimer := 0,
                      onGround := false }
  if collide s4.arena s4.px s4.py s4.matrix then
    { s4 with gameOver := true, resetTimer := some 800 }
  else s4

/-- Source function `resetGame()`: zero every arena row, empty the queue
and bag, refill, zero score/lines/level, clear hold state and the
game-over flag, and spawn. -/
def resetGame (rnd : Nat → List Nat) (s : GState) : GState :=
  let s1 := { s with arena := s.arena.map (fun row => List.replicate row.length 0),
                     queue := [], bag := [], bagIdx := 0 }
  let s2 := refillQueue rnd s1
  let s3 := { s2 with score := 0, lines := 0, level := 0, holdPiece := none,
                      holdUsed := false, gameOver := false, resetTimer := none }
  spawnPlayer rnd s3

/-- Firing of the scheduled game-over reset: once the dwell time has
elapsed, the pending `setTimeout(resetGame, 800)` callback runs. -/
def fireReset (rnd : Nat → List Nat) (elapsed : Rat) (s : GState) : GState :=
  match s.resetTimer with
  | some d => if d ≤ elapsed then resetGame rnd s else s
  | none => s

/-- The greedy descent loop of `hardDrop`:
`while (!collide(arena, x, floor(y + drop + 1), matrix)) drop++`.  The
source loop is unbounded; the fuel passed by `dropOffset` is shown by
`dropLoop_finds` to be enough for any shape with at least one occupied
cell. -/
def dropLoop (s : GState) : Nat → Nat → Nat
  | 0, d => d
  | fuel + 1, d =>
    if collide s.arena s.px (s.py + d + 1) s.matrix then d
    else dropLoop s fuel (d + 1)

/-- The number of rows a hard drop falls from the current position. -/
def dropOffset (s : GState) : Nat :=
  dropLoop s (((ROWS : Int) - s.py).toNat + s.matrix.length + 1) 0

/-- Source function `hardDrop()`: descend greedily to the last
non-colliding row, merge, sweep, spawn the next piece, and zero the
gravity accumulator — the lock delay plays no part. -/
def hardDrop (rnd : Nat → List Nat) (s : GState) : GState :=
  if s.gameOver || s.paused then s
  else
    let s1 := { s with py := s.py + dropOffset s }
    let s2 := mergeState s1
    let s3 := sweepScore s2
    let s4 := spawnPlayer rnd s3
    { s4 with dropAcc := 0 }

/-- The gravity `while (dropAccumulator >= msPerCell)` loop of `update`:
descend one row per elapsed cell time; on collision revert the row, set
the ground flag (starting the lock timer on the ground-contact edge) and
break; otherwise clear the ground flag and lock timer and continue. -/
def gravLoop (msPerCell : Rat) : Nat → GState → GState
  | 0, s => s
  | fuel + 1, s =>
    if msPerCell ≤ s.dropAcc then
      if collide s.arena s.px (s.py + 1) s.matrix then
        { s with dropAcc := s.dropAcc - msPerCell, onGround := true,
                 lockTimer := if s.onGround then s.lockTimer else 0 }
      else
        gravLoop msPerCell fuel
          { s with py := s.py + 1, dropAcc := s.dropAcc - msPerCell,
                   onGround := false, lockTimer := 0 }
    else s

/-- Iteration bound for the gravity loop: the accumulator shrinks by
`msPerCell > 0` every iteration, so `⌈dropAcc / msPerCell⌉` iterations
always suffice and the fueled loop coincides with the source's `while`. -/
def gravFuel (dropAcc msPerCell : Rat) : Nat := (⌈dropAcc / msPerCell⌉).toNat

/-- The gravity phase of one `update` frame. -/
def gravRun (msPerCell : Rat) (s : GState) : GState :=
  gravLoop msPerCell (gravFuel s.dropAcc msPerCell) s

/-- The lock branch of `update`: merge, sweep, spawn, then zero the
gravity accumulator, lock timer and ground flag — in the source's order. -/
def lockNow (rnd : Nat → List Nat) (s : GState) : GState :=
  let s1 := mergeState s
  let s2 := sweepScore s1
  let s3 := spawnPlayer rnd s2
  { s3 with dropAcc := 0, lockTimer := 0, onGround := false }

/-- Source function `update(time)` (one frame of simulation, rendering
elided): when neither paused nor over, accumulate gravity time and run
the descent loop, process one DAS auto-repeat move when one is due, then
handle the lock delay: on the ground the lock timer grows by the frame
delta and reaching `LOCK_DELAY` locks the piece; off the ground the lock
timer is zeroed.  The DAS inputs (`held left/right`, `now >= nextMoveAt`)
are passed in as booleans. -/
def update (rnd : Nat → List Nat) (delta : Rat)
    (soft dasLeft dasRight dasDue : Bool) (s : GState) : GState :=
  if ¬s.paused ∧ ¬s.gameOver then
    let gravity := if soft then s.gravityCPS * SOFT_DROP_MULT else s.gravityCPS
    let msPerCell := 1000 / max (1 / 1000) gravity
    let s1 := { s with dropAcc := s.dropAcc + delta }
    let s2 := gravRun msPerCell s1
    let s3 := if (dasLeft || dasRight) && dasDue then
        moveOnce (if dasLeft then -1 else 1) s2
      else s2
    if s3.onGround then
      let s4 := { s3 with lockTimer := s3.lockTimer + delta }
      if LOCK_DELAY ≤ s4.lockTimer then lockNow rnd s4 else s4
    else { s3 with lockTimer := 0 }
  else s

/-- Sample board with every cell empty. -/
def emptyBoard : List (List Nat) := List.replicate ROWS (List.replicate COLS 0)

/-- Sample board with every cell occupied. -/
def fullBoard : List (List Nat) := List.replicate ROWS (List.replicate COLS 1)

/-- Sample completely occupied row. -/
def fullRow : List Nat := List.replicate COLS 1

/-- Sample row with exactly one occupied cell (not full). -/
def halfRow : List Nat := 1 :: List.replicate 11 0

/-- Sample board whose rows 2 and 5 are full and all others partially
occupied. -/
def demoBoard : List (List Nat) :=
  [halfRow, halfRow, fullRow, halfRow, halfRow, fullRow] ++
    List.replicate 14 halfRow

/-- Sample board with exactly one full row. -/
def oneRowBoard : List (List Nat) := fullRow :: List.replicate 19 halfRow

/-- Sample board with exactly four full rows. -/
def fourRowBoard : List (List Nat) :=
  List.replicate 4 fullRow ++ List.replicate 16 halfRow

/-- Sample game state: an O piece resting on the floor of an empty board. -/
def restingState : GState :=
  { arena := emptyBoard, px := 5, py := 18, matrix := stamp .O, pid := 2,
    queue := [], bag := [], bagIdx := 0, rndCtr := 0, holdPiece := none,
    holdUsed := false, score := 0, lines := 0, level := 0, lockTimer := 0,
    onGround := true, dropAcc := 0, gameOver := false, paused := false,
    gravityCPS := 1, resetTimer := none }

/-- Sample game state: a T piece at the top of an empty board. -/
def dropState : GState :=
  { restingState with px := 4, py := 0, matrix := stamp .T, pid := 3,
                      onGround := false }

/-- Sample game state on a completely occupied board. -/
def stuckState : GState := { restingState with arena := fullBoard }

/-- Sample game state with the game-over flag set. -/
def overState : GState := { restingState with gameOver := true }

/-- Sample game state with a pending game-over reset. -/
def pendingState : GState :=
  { restingState with gameOver := true, resetTimer := some 800 }

/-- Sample game state: a T piece hugging the left wall so closely that the
first rotation kick collides and the second one succeeds. -/
def kickState : GState :=
  { restingState with px := -2, py := 5, matrix := stamp .T, pid := 3,
                      onGround := true, lockTimer := 300 }

/-- Sample game state in which every rotation kick collides. -/
def blockedState : GState := { kickState with arena := fullBoard, px := 4 }

/-- Sample game state over a board with one full row, level 0. -/
def scoreState : GState := { restingState with arena := oneRowBoard }

/-- Sample game state over a board with one full row, level 1. -/
def scoreState1 : GState :=
  { restingState with arena := oneRowBoard, lines := 10, level := 1 }

/-- Sample game state over a board with four full rows. -/
def scoreState4 : GState := { restingState with arena := fourRowBoard }

/-- C1: `collide` returns true iff at least one occupied shape cell maps
outside `[0, columns)` horizontally, to or below row `rows` vertically, or
onto a non-empty board cell with vertical coordinate ≥ 0; and a position
all of whose occupied cells are horizontally in range and either above the
top of the board or over empty in-range cells is never a collision. -/
theorem collide_correct (arena : List (List Nat)) (px py : Int) (m : List (List Nat)) :
    (collide arena px py m = true ↔ collideSpec arena px py m) ∧
    ((∀ y x, y < m.length → x < (m.getD y []).length → (m.getD y []).getD x 0 ≠ 0 →
        0 ≤ px + x ∧ px + x < (COLS : Int) ∧ py + y < (ROWS : Int) ∧
          (0 ≤ py + y → getC arena (py + y).toNat (px + x).toNat = 0)) →
      collide arena px py m = false) := by
  have hiff : collide arena px py m = true ↔ collideSpec arena px py m := by
    unfold collide collideSpec
    simp only [List.any_eq_true, List.mem_range, Bool.and_eq_true, Bool.or_eq_true,
      decide_eq_true_eq, bne_iff_ne, ne_eq]
    constructor
    · rintro ⟨y, hy, x, hx, hocc, hcol⟩
      exact ⟨y, x, hy, hx, hocc, by tauto⟩
    · rintro ⟨y, x, hy, hx, hocc, hcol⟩
      exact ⟨y, hy, x, hx, hocc, by tauto⟩
  refine ⟨hiff, fun hsafe => ?_⟩
  rw [← Bool.not_eq_true, hiff]
  rintro ⟨y, x, hy, hx, hocc, hcol⟩
  obtain ⟨h1, h2, h3, h4⟩ := hsafe y x hy hx hocc
  rcases hcol with h | h | h | ⟨hge, hcell⟩
  · omega
  · omega
  · omega
  · exact hcell (h4 hge)

theorem getD_rows {m : List (List Nat)} {rows cols : Nat} (h : Rect m rows cols)
    {i : Nat} (hi : i < rows) : (m.getD i []).length = cols := by
  obtain ⟨hl, hr⟩ := h
  have hi' : i < m.length := by omega
  have : m.getD i [] = m[i] := by
    simp [List.getD_eq_getElem?_getD, List.getElem?_eq_getElem hi']
  rw [this]
  exact hr _ (List.getElem_mem _)

theorem rect_setC {m : List (List Nat)} {rows cols : Nat} (h : Rect m rows cols)
    {i : Nat} (j : Nat) (hi : i < rows) (v : Nat) :
    Rect (setC m i j v) rows cols := by
  obtain ⟨hl, hr⟩ := h
  refine ⟨by simp [setC, hl], fun r hrmem => ?_⟩
  rcases List.mem_or_eq_of_mem_set hrmem with hin | heq
  · exact hr _ hin
  · rw [heq, List.length_set]
    exact getD_rows ⟨hl, hr⟩ hi

theorem square_setC {m : List (List Nat)} {n : Nat} (h : Square m n) {i j : Nat}
    (hi : i < n) (v : Nat) : Square (setC m i j v) n :=
  rect_setC h j hi v

theorem getC_setC {m : List (List Nat)} {rows cols : Nat} (h : Rect m rows cols)
    {i j : Nat} (hi : i < rows) (hj : j < cols) (v : Nat) (a b : Nat) :
    getC (setC m i j v) a b = if i = a ∧ j = b then v else getC m a b := by
  have hl := h.1
  have hi' : i < m.length := by omega
  have hrow : (m.getD i []).length = cols := getD_rows h hi
  unfold getC setC
  by_cases hia : i = a
  · subst hia
    have hrw : (m.set i ((m.getD i []).set j v)).getD i [] = (m.getD i []).set j v := by
      rw [List.getD_eq_getElem?_getD, List.getElem?_set_self hi', Option.getD_some]
    rw [hrw]
    by_cases hjb : j = b
    · subst hjb
      rw [List.getD_eq_getElem?_getD, List.getElem?_set_self (by omega),
        Option.getD_some, if_pos ⟨rfl, rfl⟩]
    · rw [List.getD_eq_getElem?_getD, List.getElem?_set_ne hjb,
        ← List.getD_eq_getElem?_getD, if_neg (by tauto)]
  · have hrw : (m.set i ((m.getD i []).set j v)).getD a [] = m.getD a [] := by
      rw [List.getD_eq_getElem?_getD, List.getElem?_set_ne hia,
        ← List.getD_eq_getElem?_getD]
    rw [hrw, if_neg (by tauto)]

theorem square_swapC {m : List (List Nat)} {n : Nat} (h : Square m n) {x y : Nat}
    (hx : x < n) (hy : y < n) : Square (swapC m x y) n :=
  square_setC (square_setC h hx _) hy _

theorem getC_swapC {m : List (List Nat)} {n : Nat} (h : Square m n) {x y : Nat}
    (hx : x < n) (hy : y < n) (hxy : x ≠ y) (a b : Nat) :
    getC (swapC m x y) a b =
      if x = a ∧ y = b then getC m y x
      else if y = a ∧ x = b then getC m x y
      else getC m a b := by
  unfold swapC
  have hset : Square (setC m x y (getC m y x)) n := square_setC h hx _
  rw [getC_setC hset hy hx (getC m x y) a b]
  by_cases h1 : y = a ∧ x = b
  · obtain ⟨rfl, rfl⟩ := h1
    rw [if_pos ⟨rfl, rfl⟩, if_neg (by rintro ⟨rfl, h⟩; exact hxy rfl),
      if_pos ⟨rfl, rfl⟩]
  · rw [if_neg h1, getC_setC h hx hy (getC m y x) a b]
    by_cases h2 : x = a ∧ y = b
    · rw [if_pos h2, if_pos h2]
    · rw [if_neg h2, if_neg h2, if_neg h1]

theorem foldl_swap_square {n : Nat} :
    ∀ (L : List (Nat × Nat)) (m : List (List Nat)), Square m n →
      (∀ p ∈ L, p.1 < p.2 ∧ p.2 < n) →
      Square (L.foldl (fun acc p => swapC acc p.1 p.2) m) n := by
  intro L
  induction L with
  | nil => intro m hm _; exact hm
  | cons p L ih =>
    intro m hm hcond
    obtain ⟨h1, h2⟩ := hcond p (List.mem_cons_self _ _)
    exact ih _ (square_swapC hm (by omega) h2)
      (fun q hq => hcond q (List.mem_cons_of_mem _ hq))

theorem foldl_swap_cells {n : Nat} :
    ∀ (L : List (Nat × Nat)) (m : List (List Nat)), Square m n →
      (∀ p ∈ L, p.1 < p.2 ∧ p.2 < n) → L.Nodup →
      ∀ a b, a < n → b < n →
        getC (L.foldl (fun acc p => swapC acc p.1 p.2) m) a b =
          if (a < b ∧ (a, b) ∈ L) ∨ (b < a ∧ (b, a) ∈ L) then getC m b a
          else getC m a b := by
  intro L
  induction L with
  | nil => intro m hm _ _ a b ha hb; simp
  | cons p L ih =>
    intro m hm hcond hnd a b ha hb
    obtain ⟨x, y⟩ := p
    have hxy := hcond (x, y) (List.mem_cons_self _ _)
    have hx : x < n := by omega
    have hy : y < n := hxy.2
    have hxney : x ≠ y := by omega
    simp only [List.foldl_cons]
    have hnd' := List.nodup_cons.mp hnd
    have hcond' : ∀ q ∈ L, q.1 < q.2 ∧ q.2 < n :=
      fun q hq => hcond q (List.mem_cons_of_mem _ hq)
    have hsq' : Square (swapC m x y) n := square_swapC hm hx hy
    rw [ih _ hsq' hcond' hnd'.2 a b ha hb]
    by_cases hab : x = a ∧ y = b
    · obtain ⟨rfl, rfl⟩ := hab
      have hPL : ¬((x < y ∧ (x, y) ∈ L) ∨ (y < x ∧ (y, x) ∈ L)) := by
        rintro (⟨_, hc⟩ | ⟨hlt, _⟩)
        · exact hnd'.1 hc
        · omega
      rw [if_neg hPL, getC_swapC hm hx hy hxney x y, if_pos ⟨rfl, rfl⟩,
        if_pos (Or.inl ⟨hxy.1, List.mem_cons_self _ _⟩)]
    · by_cases hba : y = a ∧ x = b
      · obtain ⟨rfl, rfl⟩ := hba
        have hPL : ¬((y < x ∧ (y, x) ∈ L) ∨ (x < y ∧ (x, y) ∈ L)) := by
          rintro (⟨hlt, _⟩ | ⟨_, hc⟩)
          · omega
          · exact hnd'.1 hc
        rw [if_neg hPL, getC_swapC hm hx hy hxney y x,
          if_neg (by rintro ⟨rfl, h⟩; exact hxney rfl), if_pos ⟨rfl, rfl⟩,
          if_pos (Or.inr ⟨hxy.1, List.mem_cons_self _ _⟩)]
      · have g1 : getC (swapC m x y) a b = getC m a b := by
          rw [getC_swapC hm hx hy hxney a b, if_neg hab, if_neg hba]
        have g2 : getC (swapC m x y) b a = getC m b a := by
          rw [getC_swapC hm hx hy hxney b a,
            if_neg (by rintro ⟨rfl, rfl⟩; exact hba ⟨rfl, rfl⟩),
            if_neg (by rintro ⟨rfl, rfl⟩; exact hab ⟨rfl, rfl⟩)]
        rw [g1, g2]
        have hciff : ((a < b ∧ (a, b) ∈ L) ∨ (b < a ∧ (b, a) ∈ L)) ↔
            ((a < b ∧ (a, b) ∈ (x, y) :: L) ∨ (b < a ∧ (b, a) ∈ (x, y) :: L)) := by
          simp only [List.mem_cons]
          constructor
          · rintro (⟨h1, h2⟩ | ⟨h1, h2⟩)
            · exact Or.inl ⟨h1, Or.inr h2⟩
            · exact Or.inr ⟨h1, Or.inr h2⟩
          · rintro (⟨h1, h2 | h2⟩ | ⟨h1, h2 | h2⟩)
            · rw [Prod.mk.injEq] at h2
              exact absurd ⟨h2.1.symm, h2.2.symm⟩ hab
            · exact Or.inl ⟨h1, h2⟩
            · rw [Prod.mk.injEq] at h2
              exact absurd ⟨h2.2.symm, h2.1.symm⟩ hba
            · exact Or.inr ⟨h1, h2⟩
        rw [if_congr hciff rfl rfl]

theorem mem_transPairs {n x y : Nat} : (x, y) ∈ transPairs n ↔ x < y ∧ y < n := by
  simp only [transPairs, List.mem_flatMap, List.mem_map, List.mem_range]
  constructor
  · rintro ⟨a, ha, b, hb, heq⟩
    rw [Prod.mk.injEq] at heq
    omega
  · rintro ⟨h1, h2⟩
    exact ⟨y, h2, x, h1, rfl⟩

theorem nodup_transPairs (n : Nat) : (transPairs n).Nodup := by
  unfold transPairs
  rw [List.nodup_flatMap]
  constructor
  · intro yy _
    exact (List.nodup_range _).map fun a b hab => by
      rw [Prod.mk.injEq] at hab
      exact hab.1
  · refine (List.pairwise_lt_range n).imp ?_
    intro a b hab
    intro z hz1 hz2
    simp only [List.mem_map, List.mem_range] at hz1 hz2
    obtain ⟨x1, _, rfl⟩ := hz1
    obtain ⟨x2, _, heq⟩ := hz2
    rw [Prod.mk.injEq] at heq
    omega

theorem square_transposeSwaps {m : List (List Nat)} {n : Nat} (h : Square m n) :
    Square (transposeSwaps m) n := by
  unfold transposeSwaps
  rw [h.1]
  exact foldl_swap_square _ _ h fun p hp => by
    obtain ⟨x, y⟩ := p
    exact mem_transPairs.mp hp

theorem getC_transposeSwaps {m : List (List Nat)} {n : Nat} (h : Square m n)
    {a b : Nat} (ha : a < n) (hb : b < n) :
    getC (transposeSwaps m) a b = getC m b a := by
  unfold transposeSwaps
  rw [h.1]
  rw [foldl_swap_cells _ _ h
    (fun p hp => by obtain ⟨x, y⟩ := p; exact mem_transPairs.mp hp)
    (nodup_transPairs n) a b ha hb]
  rcases Nat.lt_trichotomy a b with hlt | heq | hgt
  · rw [if_pos (Or.inl ⟨hlt, mem_transPairs.mpr ⟨hlt, hb⟩⟩)]
  · subst heq
    rw [if_neg (by rintro (⟨hc, _⟩ | ⟨hc, _⟩) <;> omega)]
  · rw [if_pos (Or.inr ⟨hgt, mem_transPairs.mpr ⟨hgt, ha⟩⟩)]

theorem square_map_reverse {t : List (List Nat)} {n : Nat} (h : Square t n) :
    Square (t.map List.reverse) n := by
  refine ⟨by simp [h.1], fun r hr => ?_⟩
  simp only [List.mem_map] at hr
  obtain ⟨r', hr', rfl⟩ := hr
  simp [h.2 r' hr']

theorem square_reverse {t : List (List Nat)} {n : Nat} (h : Square t n) :
    Square t.reverse n :=
  ⟨by simp [h.1], fun r hr => h.2 r (List.mem_reverse.mp hr)⟩

theorem getD_reverse_of_lt {l : List Nat} {b n : Nat} (hlen : l.length = n)
    (hb : b < n) : l.reverse.getD b 0 = l.getD (n - 1 - b) 0 := by
  rw [List.getD_eq_getElem?_getD, List.getD_eq_getElem?_getD,
    List.getElem?_reverse (by omega), hlen]

theorem getC_map_reverse {t : List (List Nat)} {n : Nat} (h : Square t n)
    {a b : Nat} (ha : a < n) (hb : b < n) :
    getC (t.map List.reverse) a b = getC t a (n - 1 - b) := by
  have ha' : a < t.length := h.1 ▸ ha
  have hrow : (t.getD a []).length = n := getD_rows h ha
  unfold getC
  have h1 : (t.map List.reverse).getD a [] = (t.getD a []).reverse := by
    rw [List.getD_eq_getElem?_getD, List.getElem?_map, List.getD_eq_getElem?_getD,
      List.getElem?_eq_getElem ha']
    rfl
  rw [h1]
  exact getD_reverse_of_lt hrow hb

theorem getC_reverse_rows {t : List (List Nat)} {n : Nat} (h : Square t n)
    {a b : Nat} (ha : a < n) (hb : b < n) :
    getC t.reverse a b = getC t (n - 1 - a) b := by
  unfold getC
  have h1 : t.reverse.getD a [] = t.getD (n - 1 - a) [] := by
    rw [List.getD_eq_getElem?_getD, List.getD_eq_getElem?_getD,
      List.getElem?_reverse (h.1 ▸ ha), h.1]
  rw [h1]

theorem square_rotateMatrix {m : List (List Nat)} {n : Nat} (h : Square m n)
    (dir : Int) : Square (rotateMatrix m dir) n := by
  unfold rotateMatrix
  by_cases hdir : dir > 0
  · rw [if_pos hdir]
    exact square_map_reverse (square_transposeSwaps h)
  · rw [if_neg hdir]
    exact square_reverse (square_transposeSwaps h)

theorem getC_rotateMatrix_pos {m : List (List Nat)} {n : Nat} (h : Square m n)
    {dir : Int} (hdir : dir > 0) {a b : Nat} (ha : a < n) (hb : b < n) :
    getC (rotateMatrix m dir) a b = getC m (n - 1 - b) a := by
  unfold rotateMatrix
  rw [if_pos hdir, getC_map_reverse (square_transposeSwaps h) ha hb,
    getC_transposeSwaps h ha (by omega)]

theorem getC_rotateMatrix_neg {m : List (List Nat)} {n : Nat} (h : Square m n)
    {dir : Int} (hdir : ¬dir > 0) {a b : Nat} (ha : a < n) (hb : b < n) :
    getC (rotateMatrix m dir) a b = getC m b (n - 1 - a) := by
  unfold rotateMatrix
  rw [if_neg hdir, getC_reverse_rows (square_transposeSwaps h) ha hb,
    getC_transposeSwaps h (by omega) hb]

theorem square_ext {m m' : List (List Nat)} {n : Nat} (h : Square m n)
    (h' : Square m' n) (hc : ∀ a b, a < n → b < n → getC m a b = getC m' a b) :
    m = m' := by
  apply List.ext_getElem (by rw [h.1, h'.1])
  intro i h1 h2
  have hi : i < n := h.1 ▸ h1
  have hrl : (m[i]).length = n := h.2 _ (List.getElem_mem _)
  have hrl' : (m'[i]).length = n := h'.2 _ (List.getElem_mem _)
  apply List.ext_getElem (by rw [hrl, hrl'])
  intro j hj1 hj2
  have hj : j < n := hrl ▸ hj1
  have hcell := hc i j hi hj
  unfold getC at hcell
  rw [List.getD_eq_getElem?_getD m, List.getElem?_eq_getElem h1,
    List.getD_eq_getElem?_getD m', List.getElem?_eq_getElem h2] at hcell
  simp only [Option.getD_some] at hcell
  rw [List.getD_eq_getElem?_getD, List.getElem?_eq_getElem hj1,
    List.getD_eq_getElem?_getD, List.getElem?_eq_getElem hj2] at hcell
  simpa using hcell

/-- C8: applying `rotateMatrix` four times with the same direction returns
any square shape matrix to its original cell pattern, for the clockwise
branch (transpose then reverse each row) and the counter-clockwise branch
(transpose then reverse the row order) alike. -/
theorem rotate_four (m : List (List Nat)) (dir : Int) (n : Nat)
    (h1 : m.length = n) (h2 : ∀ r ∈ m, r.length = n) :
    rotateMatrix (rotateMatrix (rotateMatrix (rotateMatrix m dir) dir) dir) dir = m := by
  have hm : Square m n := ⟨h1, h2⟩
  have hq1 : Square (rotateMatrix m dir) n := square_rotateMatrix hm dir
  have hq2 := square_rotateMatrix hq1 dir
  have hq3 := square_rotateMatrix hq2 dir
  have hq4 := square_rotateMatrix hq3 dir
  apply square_ext hq4 hm
  intro a b ha hb
  by_cases hdir : dir > 0
  · rw [getC_rotateMatrix_pos hq3 hdir ha hb,
      getC_rotateMatrix_pos hq2 hdir (by omega) ha,
      getC_rotateMatrix_pos hq1 hdir (by omega) (by omega),
      getC_rotateMatrix_pos hm hdir (by omega) (by omega)]
    congr 1 <;> omega
  · rw [getC_rotateMatrix_neg hq3 hdir ha hb,
      getC_rotateMatrix_neg hq2 hdir hb (by omega),
      getC_rotateMatrix_neg hq1 hdir (by omega) (by omega),
      getC_rotateMatrix_neg hm hdir (by omega) (by omega)]
    congr 1 <;> omega

theorem mergeCell_eq (px py : Int) (r : List Nat) (y : Nat)
    (B : List (List Nat)) (x : Nat) :
    mergeCell px py r y B x =
      if r.getD x 0 ≠ 0 then
        if 0 ≤ py + y ∧ py + y < (ROWS : Int) ∧ 0 ≤ px + x ∧ px + x < (COLS : Int) then
          setC B (py + y).toNat (px + x).toNat (r.getD x 0)
        else B
      else B := rfl

theorem mergeCell_rect {px py : Int} {r : List Nat} {y : Nat}
    {B : List (List Nat)} (hB : Rect B ROWS COLS) (x : Nat) :
    Rect (mergeCell px py r y B x) ROWS COLS := by
  unfold mergeCell
  split
  · split
    · next hG => exact rect_setC hB _ (by omega) _
    · exact hB
  · exact hB

theorem foldl_mergeCell_rect (px py : Int) (r : List Nat) (y : Nat) :
    ∀ (L : List Nat) (B : List (List Nat)), Rect B ROWS COLS →
      Rect (L.foldl (mergeCell px py r y) B) ROWS COLS := by
  intro L
  induction L with
  | nil => intro B hB; exact hB
  | cons x L ih => intro B hB; exact ih _ (mergeCell_rect hB x)

theorem mergeRow_rect {px py : Int} {m : List (List Nat)}
    {A : List (List Nat)} (hA : Rect A ROWS COLS) (y : Nat) :
    Rect (mergeRow px py m A y) ROWS COLS :=
  foldl_mergeCell_rect _ _ _ _ _ _ hA

theorem foldl_mergeCell_cells (px py : Int) (r : List Nat) (y : Nat) :
    ∀ (t : Nat) (A : List (List Nat)), Rect A ROWS COLS →
    ∀ i j, i < ROWS → j < COLS →
    getC ((List.range t).foldl (mergeCell px py r y) A) i j =
      if py + y = (i : Int) ∧ 0 ≤ (j : Int) - px ∧ (j : Int) - px < (t : Int) ∧
          r.getD ((j : Int) - px).toNat 0 ≠ 0
      then r.getD ((j : Int) - px).toNat 0
      else getC A i j := by
  intro t
  induction t with
  | zero =>
    intro A hA i j hi hj
    rw [List.range_zero, List.foldl_nil, if_neg (by rintro ⟨_, h2, h3, _⟩; omega)]
  | succ t ih =>
    intro A hA i j hi hj
    rw [List.range_succ, List.foldl_append, List.foldl_cons, List.foldl_nil]
    have hBrect := foldl_mergeCell_rect px py r y (List.range t) A hA
    rw [mergeCell_eq]
    by_cases hocc : r.getD t 0 ≠ 0
    · rw [if_pos hocc]
      by_cases hG : 0 ≤ py + (y : Int) ∧ py + y < (ROWS : Int) ∧
          0 ≤ px + (t : Int) ∧ px + t < (COLS : Int)
      · rw [if_pos hG,
          getC_setC hBrect (show (py + (y : Int)).toNat < ROWS by omega)
            (show (px + (t : Int)).toNat < COLS by omega) _ i j]
        by_cases hhit : (py + (y : Int)).toNat = i ∧ (px + (t : Int)).toNat = j
        · rw [if_pos hhit]
          have hxt : ((j : Int) - px).toNat = t := by omega
          rw [if_pos ⟨by omega, by omega, by omega, by rw [hxt]; exact hocc⟩, hxt]
        · rw [if_neg hhit, ih A hA i j hi hj]
          refine if_congr ⟨?_, ?_⟩ rfl rfl
          · rintro ⟨h1, h2, h3, h4⟩
            exact ⟨h1, h2, by omega, h4⟩
          · rintro ⟨h1, h2, h3, h4⟩
            by_cases hjt : (j : Int) - px = t
            · exact absurd ⟨by omega, by omega⟩ hhit
            · exact ⟨h1, h2, by omega, h4⟩
      · rw [if_neg hG, ih A hA i j hi hj]
        refine if_congr ⟨?_, ?_⟩ rfl rfl
        · rintro ⟨h1, h2, h3, h4⟩
          exact ⟨h1, h2, by omega, h4⟩
        · rintro ⟨h1, h2, h3, h4⟩
          by_cases hjt : (j : Int) - px = t
          · exact absurd ⟨by omega, by omega, by omega, by omega⟩ hG
          · exact ⟨h1, h2, by omega, h4⟩
    · rw [if_neg hocc, ih A hA i j hi hj]
      refine if_congr ⟨?_, ?_⟩ rfl rfl
      · rintro ⟨h1, h2, h3, h4⟩
        exact ⟨h1, h2, by omega, h4⟩
      · rintro ⟨h1, h2, h3, h4⟩
        by_cases hjt : (j : Int) - px = t
        · rw [show ((j : Int) - px).toNat = t by omega] at h4
          exact absurd h4 hocc
        · exact ⟨h1, h2, by omega, h4⟩

theorem mergeRow_cells (px py : Int) (m : List (List Nat)) (y : Nat)
    (A : List (List Nat)) (hA : Rect A ROWS COLS)
    (i j : Nat) (hi : i < ROWS) (hj : j < COLS) :
    getC (mergeRow px py m A y) i j =
      if py + y = (i : Int) ∧ 0 ≤ (j : Int) - px ∧
          (j : Int) - px < ((m.getD y []).length : Int) ∧
          (m.getD y []).getD ((j : Int) - px).toNat 0 ≠ 0
      then (m.getD y []).getD ((j : Int) - px).toNat 0
      else getC A i j :=
  foldl_mergeCell_cells px py (m.getD y []) y (m.getD y []).length A hA i j hi hj

theorem foldl_mergeRow_rect (px py : Int) (m : List (List Nat)) :
    ∀ (L : List Nat) (A : List (List Nat)), Rect A ROWS COLS →
      Rect (L.foldl (mergeRow px py m) A) ROWS COLS := by
  intro L
  induction L with
  | nil => intro A hA; exact hA
  | cons y L ih => intro A hA; exact ih _ (mergeRow_rect hA y)

theorem foldl_mergeRow_cells (px py : Int) (m : List (List Nat)) :
    ∀ (u : Nat) (A : List (List Nat)), Rect A ROWS COLS →
    ∀ i j, i < ROWS → j < COLS →
    getC ((List.range u).foldl (mergeRow px py m) A) i j =
      if 0 ≤ (i : Int) - py ∧ (i : Int) - py < (u : Int) ∧ 0 ≤ (j : Int) - px ∧
          (j : Int) - px < ((m.getD ((i : Int) - py).toNat []).length : Int) ∧
          (m.getD ((i : Int) - py).toNat []).getD ((j : Int) - px).toNat 0 ≠ 0
      then (m.getD ((i : Int) - py).toNat []).getD ((j : Int) - px).toNat 0
      else getC A i j := by
  intro u
  induction u with
  | zero =>
    intro A hA i j hi hj
    rw [List.range_zero, List.foldl_nil, if_neg (by rintro ⟨h1, h2, _⟩; omega)]
  | succ u ih =>
    intro A hA i j hi hj
    rw [List.range_succ, List.foldl_append, List.foldl_cons, List.foldl_nil]
    have hBrect := foldl_mergeRow_rect px py m (List.range u) A hA
    rw [mergeRow_cells px py m u _ hBrect i j hi hj, ih A hA i j hi hj]
    by_cases hyi : py + (u : Int) = i
    · have hu : ((i : Int) - py).toNat = u := by omega
      have hCu : ¬(0 ≤ (i : Int) - py ∧ (i : Int) - py < (u : Int) ∧
          0 ≤ (j : Int) - px ∧
          (j : Int) - px < ((m.getD ((i : Int) - py).toNat []).length : Int) ∧
          (m.getD ((i : Int) - py).toNat []).getD ((j : Int) - px).toNat 0 ≠ 0) := by
        rintro ⟨_, h2, _⟩
        omega
      rw [if_neg hCu, hu]
      refine if_congr ⟨?_, ?_⟩ rfl rfl
      · rintro ⟨h1, h2, h3, h4⟩
        exact ⟨by omega, by omega, h2, h3, h4⟩
      · rintro ⟨h1, h2, h3, h4, h5⟩
        exact ⟨hyi, h3, h4, h5⟩
    · have hQin : ¬(py + (u : Int) = (i : Int) ∧ 0 ≤ (j : Int) - px ∧
          (j : Int) - px < ((m.getD u []).length : Int) ∧
          (m.getD u []).getD ((j : Int) - px).toNat 0 ≠ 0) := by
        rintro ⟨h1, _⟩
        exact hyi h1
      rw [if_neg hQin]
      refine if_congr ⟨?_, ?_⟩ rfl rfl
      · rintro ⟨h1, h2, h3, h4, h5⟩
        exact ⟨h1, by omega, h3, h4, h5⟩
      · rintro ⟨h1, h2, h3, h4, h5⟩
        exact ⟨h1, by omega, h3, h4, h5⟩

/-- C10: `mergeToArena` preserves the board dimensions (never writes out of
bounds), writes exactly the in-bounds images of occupied shape cells (shape
cells mapping outside the bounds are silently skipped), leaves every other
board cell unchanged, and — when the shape is stamped with a single piece
identifier, as every spawned piece is — every changed cell now holds that
identifier. -/
theorem merge_correct (arena : List (List Nat)) (px py : Int)
    (m : List (List Nat)) (pid : Nat)
    (hA : arena.length = ROWS) (hr : ∀ r ∈ arena, r.length = COLS) :
    (mergeToArena arena px py m).length = ROWS ∧
    (∀ r ∈ mergeToArena arena px py m, r.length = COLS) ∧
    (∀ i j, i < ROWS → j < COLS →
      getC (mergeToArena arena px py m) i j =
        if 0 ≤ (i : Int) - py ∧ (i : Int) - py < (m.length : Int) ∧
            0 ≤ (j : Int) - px ∧
            (j : Int) - px < ((m.getD ((i : Int) - py).toNat []).length : Int) ∧
            (m.getD ((i : Int) - py).toNat []).getD ((j : Int) - px).toNat 0 ≠ 0
        then (m.getD ((i : Int) - py).toNat []).getD ((j : Int) - px).toNat 0
        else getC arena i j) ∧
    ((∀ y x, (m.getD y []).getD x 0 ≠ 0 → (m.getD y []).getD x 0 = pid) →
      ∀ i j, i < ROWS → j < COLS →
        getC (mergeToArena arena px py m) i j ≠ getC arena i j →
        getC (mergeToArena arena px py m) i j = pid) := by
  have hrect : Rect arena ROWS COLS := ⟨hA, hr⟩
  have hrect' : Rect (mergeToArena arena px py m) ROWS COLS :=
    foldl_mergeRow_rect px py m _ _ hrect
  have hcells := fun i j hi hj =>
    foldl_mergeRow_cells px py m m.length arena hrect i j hi hj
  refine ⟨hrect'.1, hrect'.2, hcells, fun hstamp i j hi hj hne => ?_⟩
  rw [mergeToArena] at hne ⊢
  rw [hcells i j hi hj] at hne ⊢
  by_cases hcond : 0 ≤ (i : Int) - py ∧ (i : Int) - py < (m.length : Int) ∧
      0 ≤ (j : Int) - px ∧
      (j : Int) - px < ((m.getD ((i : Int) - py).toNat []).length : Int) ∧
      (m.getD ((i : Int) - py).toNat []).getD ((j : Int) - px).toNat 0 ≠ 0
  · rw [if_pos hcond]
    exact hstamp _ _ hcond.2.2.2.2
  · rw [if_neg hcond] at hne
    exact absurd rfl hne

theorem isFullRow_emptyRow : isFullRow emptyRow = false := by decide

theorem sweepAux_eq :
    ∀ (fuel n : Nat) (A : List (List Nat)), n ≤ A.length →
      n + (A.take n).countP isFullRow ≤ fuel →
      sweepAux fuel A n =
        (List.replicate ((A.take n).countP isFullRow) emptyRow ++
          ((A.take n).filter fun r => !isFullRow r) ++ A.drop n,
         (A.take n).countP isFullRow) := by
  intro fuel
  induction fuel with
  | zero =>
    intro n A hn hf
    have hn0 : n = 0 := by omega
    subst hn0
    simp [sweepAux]
  | succ fuel ih =>
    intro n A hn hf
    match n, hn, hf with
    | 0, hn, hf => simp [sweepAux]
    | n + 1, hn, hf =>
      have hlt : n < A.length := by omega
      have hgetD : A.getD n [] = A[n] := by
        rw [List.getD_eq_getElem?_getD, List.getElem?_eq_getElem hlt]
        rfl
      have htake : A.take (n + 1) = A.take n ++ [A[n]] := by
        rw [List.take_succ, List.getElem?_eq_getElem hlt]
        rfl
      have htklen : (A.take n).length = n := by
        rw [List.length_take]
        omega
      by_cases hfull : isFullRow (A[n]) = true
      · have hcnt : (A.take (n + 1)).countP isFullRow =
            (A.take n).countP isFullRow + 1 := by
          rw [htake, List.countP_append]
          simp [List.countP_cons, hfull]
        have herase : A.eraseIdx n = A.take n ++ A.drop (n + 1) :=
          List.eraseIdx_eq_take_drop_succ ..
        have htakeA' : (emptyRow :: A.eraseIdx n).take (n + 1) =
            emptyRow :: A.take n := by
          rw [List.take_succ_cons, herase, List.take_append_eq_append_take,
            htklen]
          simp [List.take_of_length_le (le_of_eq htklen)]
        have hdropA' : (emptyRow :: A.eraseIdx n).drop (n + 1) =
            A.drop (n + 1) := by
          rw [List.drop_succ_cons, herase, List.drop_append_eq_append_drop,
            htklen]
          simp
        have hlenA' : n + 1 ≤ (emptyRow :: A.eraseIdx n).length := by
          rw [List.length_cons, List.length_eraseIdx_of_lt hlt]
          omega
        have hcntA' : ((emptyRow :: A.eraseIdx n).take (n + 1)).countP isFullRow =
            (A.take n).countP isFullRow := by
          rw [htakeA', List.countP_cons]
          simp [isFullRow_emptyRow]
        have hrec := ih (n + 1) (emptyRow :: A.eraseIdx n) hlenA'
          (by rw [hcntA']; omega)
        have hcnt_empty : List.countP isFullRow (emptyRow :: A.take n) =
            List.countP isFullRow (A.take n) := by
          simp [List.countP_cons, isFullRow_emptyRow]
        simp only [sweepAux, hgetD, hfull, if_true]
        rw [hrec, htakeA', hdropA', hcnt_empty, hcnt]
        congr 1
        simp only [List.filter_cons, isFullRow_emptyRow, Bool.not_false,
          if_true]
        rw [htake, List.filter_append]
        simp only [List.filter_cons, hfull, Bool.not_true, List.filter_nil,
          List.append_nil]
        rw [List.replicate_succ' ((A.take n).countP isFullRow) emptyRow]
        simp [List.append_assoc]
      · have hfull' : isFullRow (A[n]) = false := by
          simpa using hfull
        have hcnt : (A.take (n + 1)).countP isFullRow =
            (A.take n).countP isFullRow := by
          rw [htake, List.countP_append]
          simp [List.countP_cons, hfull']
        have hrec := ih n A (by omega) (by omega)
        simp only [sweepAux, hgetD, hfull', if_false]
        rw [hrec, hcnt]
        rw [htake, List.filter_append]
        simp only [List.filter_cons, hfull', Bool.not_false, if_true,
          List.filter_nil]
        rw [List.drop_eq_getElem_cons hlt]
        simp [List.append_assoc]

/-- C2: `sweepArena` (which scans rows from the bottom of the board upward,
re-examining the same index after each removal) removes exactly the full
rows — the topmost row included — inserts one fresh empty row at the top
per removal, preserves the relative order of the remaining rows, and
returns the number of cleared rows (0 when none is full); and a row is
full precisely when every one of its `COLS` cells is non-empty. -/
theorem sweep_correct (A : List (List Nat)) (hA : A.length = ROWS) :
    sweepArena A =
      (List.replicate (A.countP isFullRow) emptyRow ++
        (A.filter fun r => !isFullRow r),
       A.countP isFullRow) ∧
    (∀ r : List Nat, r.length = COLS →
      (isFullRow r = true ↔ ∀ x, x < COLS → r.getD x 0 ≠ 0)) := by
  constructor
  · have htk : A.take ROWS = A := by
      rw [← hA]
      exact List.take_length A
    have hdp : A.drop ROWS = A.drop A.length := by rw [hA]
    have hcp : (A.take ROWS).countP isFullRow = A.countP isFullRow := by
      rw [htk]
    have hcnt_le : A.countP isFullRow ≤ ROWS := by
      rw [← hA]
      exact List.countP_le_length _
    have := sweepAux_eq (2 * ROWS) ROWS A (by omega)
      (by rw [hcp]; omega)
    rw [sweepArena, this, htk, hdp, List.drop_length, List.append_nil]
  · intro r hlen
    unfold isFullRow
    rw [List.all_eq_true]
    constructor
    · intro h x hx
      have hx' : x < r.length := by omega
      have := h x (List.mem_range.mpr hx)
      rw [List.getElem?_eq_getElem hx'] at this
      simp only [Bool.not_eq_true', beq_iff_eq, Option.some.injEq] at this
      rw [List.getD_eq_getElem?_getD, List.getElem?_eq_getElem hx']
      simpa using this
    · intro h x hx
      have hx' : x < COLS := List.mem_range.mp hx
      have hxr : x < r.length := by omega
      have := h x hx'
      rw [List.getD_eq_getElem?_getD, List.getElem?_eq_getElem hxr] at this
      simp only [Option.getD_some] at this
      rw [List.getElem?_eq_getElem hxr]
      simpa using this

theorem set_cons_perm {α : Type} :
    ∀ (l : List α) (m : Nat) (b : α) (h : m < l.length),
      List.Perm (l[m] :: l.set m b) (b :: l) := by
  intro l
  induction l with
  | nil => intro m b h; simp at h
  | cons c t ih =>
    intro m b h
    match m with
    | 0 => exact List.Perm.swap b c t
    | m + 1 =>
      have hm : m < t.length := by simpa using h
      have step1 : List.Perm (t[m] :: c :: t.set m b) (c :: t[m] :: t.set m b) :=
        List.Perm.swap c (t[m]) _
      have step2 : List.Perm (c :: t[m] :: t.set m b) (c :: b :: t) :=
        List.Perm.cons c (ih m b hm)
      have step3 : List.Perm (c :: b :: t) (b :: c :: t) := List.Perm.swap b c t
      exact ((step1.trans step2).trans step3)

theorem swapL_length (l : List Piece) (i j : Nat) :
    (swapL l i j).length = l.length := by
  simp [swapL]

theorem swapL_perm :
    ∀ (l : List Piece) (i j : Nat), i < l.length → j < l.length →
      List.Perm (swapL l i j) l := by
  intro l
  induction l with
  | nil => intro i j hi hj; simp at hi
  | cons c t ih =>
    intro i j hi hj
    match i, j with
    | 0, 0 =>
      simp [swapL]
    | 0, j + 1 =>
      have hj' : j < t.length := by simpa using hj
      have hget : (c :: t).getD (j + 1) default = t[j] := by
        rw [List.getD_eq_getElem?_getD, List.getElem?_cons_succ,
          List.getElem?_eq_getElem hj']
        rfl
      have hget0 : (c :: t).getD 0 default = c := rfl
      simp only [swapL, hget, hget0, List.set_cons_zero, List.set_cons_succ]
      exact set_cons_perm t j c hj'
    | i + 1, 0 =>
      have hi' : i < t.length := by simpa using hi
      have hget : (c :: t).getD (i + 1) default = t[i] := by
        rw [List.getD_eq_getElem?_getD, List.getElem?_cons_succ,
          List.getElem?_eq_getElem hi']
        rfl
      have hget0 : (c :: t).getD 0 default = c := rfl
      simp only [swapL, hget, hget0, List.set_cons_succ, List.set_cons_zero]
      exact set_cons_perm t i c hi'
    | i + 1, j + 1 =>
      have hi' : i < t.length := by simpa using hi
      have hj' : j < t.length := by simpa using hj
      have hget : (c :: t).getD (i + 1) default = t.getD i default := by
        rw [List.getD_eq_getElem?_getD, List.getElem?_cons_succ,
          ← List.getD_eq_getElem?_getD]
      have hget' : (c :: t).getD (j + 1) default = t.getD j default := by
        rw [List.getD_eq_getElem?_getD, List.getElem?_cons_succ,
          ← List.getD_eq_getElem?_getD]
      simp only [swapL, hget, hget', List.set_cons_succ]
      exact List.Perm.cons c (ih i j hi' hj')

theorem fyLoop_perm :
    ∀ (i : Nat) (cs : List Nat) (b : List Piece), i < b.length →
      List.Perm (fyLoop b i cs) b := by
  intro i
  induction i with
  | zero =>
    intro cs b h
    exact List.Perm.refl b
  | succ i ih =>
    intro cs b h
    have hj : cs.headD 0 % (i + 2) < b.length := by
      have := Nat.mod_lt (cs.headD 0) (show 0 < i + 2 by omega)
      omega
    have hswap := swapL_perm b (i + 1) (cs.headD 0 % (i + 2)) h hj
    have hlen := swapL_length b (i + 1) (cs.headD 0 % (i + 2))
    exact (ih cs.tail _ (by omega)).trans hswap

theorem shuffleBag_perm (cs : List Nat) : List.Perm (shuffleBag cs) bagOrder :=
  fyLoop_perm 6 cs bagOrder (by decide)

theorem shuffleBag_length (cs : List Nat) : (shuffleBag cs).length = 7 :=
  (shuffleBag_perm cs).length_eq.trans rfl

theorem shuffleBag_nodup (cs : List Nat) : (shuffleBag cs).Nodup :=
  ((shuffleBag_perm cs).nodup_iff).mpr (by decide)

theorem drawN_add (rnd : Nat → List Nat) (a b : Nat) (r : RandS) :
    drawN rnd (a + b) r =
      ((drawN rnd a r).1 ++ (drawN rnd b (drawN rnd a r).2).1,
       (drawN rnd b (drawN rnd a r).2).2) := by
  induction a generalizing r with
  | zero => simp [drawN]
  | succ a ih =>
    have hadd : a + 1 + b = (a + b) + 1 := by omega
    rw [hadd]
    simp only [drawN]
    rw [ih]
    simp

theorem drawN_run (rnd : Nat → List Nat) (B : List Piece) (c : Nat) :
    ∀ (k i : Nat), i + k = B.length →
      drawN rnd k ⟨B, i, c⟩ = (B.drop i, ⟨B, i + k, c⟩) := by
  intro k
  induction k with
  | zero =>
    intro i h
    have hi : i = B.length := by omega
    subst hi
    simp [drawN, List.drop_length]
  | succ k ih =>
    intro i h
    have hi : i < B.length := by omega
    have hcond : ¬(B.length ≤ i) := by omega
    have hnext : nextPiece rnd ⟨B, i, c⟩ = (B[i], ⟨B, i + 1, c⟩) := by
      simp only [nextPiece]
      rw [if_neg hcond]
      rw [List.getD_eq_getElem?_getD, List.getElem?_eq_getElem hi]
      rfl
    simp only [drawN, hnext]
    rw [ih (i + 1) (by omega)]
    rw [show i + 1 + k = i + (k + 1) from by omega,
      ← List.drop_eq_getElem_cons hi]

theorem drawN_boundary (rnd : Nat → List Nat) (b : List Piece) (i c : Nat)
    (h : b.length ≤ i) :
    drawN rnd 7 ⟨b, i, c⟩ =
      (shuffleBag (rnd c), ⟨shuffleBag (rnd c), 7, c + 1⟩) := by
  have hlen : (shuffleBag (rnd c)).length = 7 := shuffleBag_length _
  have hnext : nextPiece rnd ⟨b, i, c⟩ =
      ((shuffleBag (rnd c)).getD 0 default, ⟨shuffleBag (rnd c), 1, c + 1⟩) := by
    simp only [nextPiece]
    rw [if_pos (by simpa using h)]
  have h1 : drawN rnd 1 ⟨b, i, c⟩ =
      ([(shuffleBag (rnd c)).getD 0 default], ⟨shuffleBag (rnd c), 1, c + 1⟩) := by
    simp only [drawN, hnext]
  rw [show (7 : Nat) = 1 + 6 from rfl, drawN_add, h1,
    drawN_run rnd _ _ 6 1 (by omega)]
  obtain ⟨hd, tl, hBt⟩ : ∃ hd tl, shuffleBag (rnd c) = hd :: tl := by
    cases hB : shuffleBag (rnd c) with
    | nil => rw [hB] at hlen; simp at hlen
    | cons hd tl => exact ⟨hd, tl, rfl⟩
  rw [hBt]
  rfl

theorem drawN_state (rnd : Nat → List Nat) :
    ∀ k : Nat, (drawN rnd (7 * k) initRand).2 =
      if k = 0 then initRand else ⟨shuffleBag (rnd (k - 1)), 7, k⟩ := by
  intro k
  induction k with
  | zero => simp [drawN, initRand]
  | succ k ih =>
    have hmul : 7 * (k + 1) = 7 * k + 7 := by ring
    rw [hmul, drawN_add, ih]
    by_cases hk : k = 0
    · subst hk
      rw [if_pos rfl, if_neg (by omega)]
      rw [show initRand = RandS.mk [] 0 0 from rfl,
        drawN_boundary rnd [] 0 0 (by simp)]
    · rw [if_neg hk, if_neg (by omega)]
      rw [drawN_boundary rnd _ 7 k (by rw [shuffleBag_length])]
      simp

/-- C4: the sequence of draws of the 7-bag randomizer is, bag-aligned run
by bag-aligned run, exactly the successive shuffled bags: draws
`7k .. 7k+6` equal the bag obtained by Fisher-Yates shuffling the 7 piece
kinds with the k-th batch of random choices, and each such bag is a
permutation of all 7 kinds with no kind repeated and length 7 — so
drawing 14 pieces yields two such permutations, each bag shuffled from
its own batch of choices, with no constraint across the boundary. -/
theorem bag_correct (rnd : Nat → List Nat) (k : Nat) :
    (drawN rnd (7 * (k + 1)) initRand).1 =
      (drawN rnd (7 * k) initRand).1 ++ shuffleBag (rnd k) ∧
    List.Perm (shuffleBag (rnd k)) bagOrder ∧
    (shuffleBag (rnd k)).Nodup ∧
    (shuffleBag (rnd k)).length = 7 := by
  refine ⟨?_, shuffleBag_perm _, shuffleBag_nodup _, shuffleBag_length _⟩
  have hmul : 7 * (k + 1) = 7 * k + 7 := by ring
  rw [hmul, drawN_add, drawN_state]
  by_cases hk : k = 0
  · subst hk
    rw [if_pos rfl]
    rw [show initRand = RandS.mk [] 0 0 from rfl,
      drawN_boundary rnd [] 0 0 (by simp)]
  · rw [if_neg hk]
    rw [drawN_boundary rnd _ 7 k (by rw [shuffleBag_length])]

theorem find?_first {p : Int → Bool} :
    ∀ (L : List Int) (i : Nat), i < L.length →
      (∀ j, j < i → p (L.getD j 0) = false) → p (L.getD i 0) = true →
      L.find? p = some (L.getD i 0) := by
  intro L
  induction L with
  | nil => intro i hi; simp at hi
  | cons c t ih =>
    intro i hi hbefore hat
    match i with
    | 0 =>
      have hc : p c = true := by simpa using hat
      simp [List.find?_cons_of_pos _ hc]
    | i + 1 =>
      have hc : p c = false := by simpa using hbefore 0 (by omega)
      rw [List.find?_cons_of_neg _ (by simp [hc]), List.getD_cons_succ]
      exact ih i (by simpa using hi)
        (fun j hj => by simpa using hbefore (j + 1) (by omega))
        (by simpa using hat)

/-- C9: rotation with kicks tests the horizontal offsets `[0, 1, -1, 2, -2]`
in order against `collide` at the unchanged row: when every offset collides
the attempt leaves the state exactly as before (shape matrix and position
restored), and when some offset is free the first such offset is applied
to the position together with the rotated matrix, and the lock-delay timer
and ground flag are reset. -/
theorem rotate_kicks_correct :
    (∀ (s : GState) (dir : Int),
      (∀ k ∈ kickOffsets,
        collide s.arena (s.px + k) s.py (rotateMatrix s.matrix dir) = true) →
      rotatePlayer dir s = s) ∧
    (∀ (s : GState) (dir : Int) (i : Nat), i < kickOffsets.length →
      (∀ j, j < i →
        collide s.arena (s.px + kickOffsets.getD j 0) s.py
          (rotateMatrix s.matrix dir) = true) →
      collide s.arena (s.px + kickOffsets.getD i 0) s.py
          (rotateMatrix s.matrix dir) = false →
      rotatePlayer dir s =
        { s with matrix := rotateMatrix s.matrix dir,
                 px := s.px + kickOffsets.getD i 0,
                 lockTimer := 0, onGround := false }) := by
  constructor
  · intro s dir hall
    have hnone : kickOffsets.find?
        (fun k => !collide s.arena (s.px + k) s.py (rotateMatrix s.matrix dir)) =
        none := by
      rw [List.find?_eq_none]
      intro k hk
      simp [hall k hk]
    simp only [rotatePlayer, hnone]
  · intro s dir i hi hbef hat
    have hsome := @find?_first
      (fun k => !collide s.arena (s.px + k) s.py (rotateMatrix s.matrix dir))
      kickOffsets i hi
      (fun j hj => by simpa using hbef j hj)
      (by simpa using hat)
    simp only [rotatePlayer, hsome]

/-- C7: when the sweep clears `c > 0` rows, the score increases by
`lineScores[c] * (level + 1)` with the table `[0, 40, 100, 300, 1200]`
(read with default 0 as the source's `lineScores[cleared] || 0` does),
the cleared count is added to the line total, and the level is recomputed
as `floor(lines / 10)` from the updated total. -/
theorem score_correct (s : GState) (hA : s.arena.length = ROWS) :
    lineScores = [0, 40, 100, 300, 1200] ∧
    (0 < s.arena.countP isFullRow →
      (sweepScore s).score =
        s.score + lineScores.getD (s.arena.countP isFullRow) 0 * (s.level + 1) ∧
      (sweepScore s).lines = s.lines + s.arena.countP isFullRow ∧
      (sweepScore s).level = (s.lines + s.arena.countP isFullRow) / 10) := by
  refine ⟨rfl, fun hpos => ?_⟩
  have hs := (sweep_correct s.arena hA).1
  simp only [sweepScore, hs]
  rw [if_pos hpos]
  exact ⟨rfl, rfl, rfl⟩

theorem dropLoop_finds (s : GState) :
    ∀ (fuel d k : Nat), k < fuel →
      collide s.arena s.px (s.py + (d + k : Nat) + 1) s.matrix = true →
      (∀ j, j < k → collide s.arena s.px (s.py + (d + j : Nat) + 1) s.matrix = false) →
      dropLoop s fuel d = d + k := by
  intro fuel
  induction fuel with
  | zero =>
    intro d k hk hat hbef
    exact absurd hk (Nat.not_lt_zero k)
  | succ fuel ih =>
    intro d k hk hat hbef
    match k with
    | 0 =>
      simp only [dropLoop]
      rw [if_pos (by simpa using hat)]
      omega
    | k + 1 =>
      have h0 : collide s.arena s.px (s.py + (d : Nat) + 1) s.matrix = false := by
        simpa using hbef 0 (by omega)
      simp only [dropLoop]
      rw [if_neg (by simp [h0])]
      have hrec := ih (d + 1) k (by omega)
        (by rw [show d + 1 + k = d + (k + 1) from by omega]; exact hat)
        (fun j hj => by
          rw [show d + 1 + j = d + (j + 1) from by omega]
          exact hbef (j + 1) (by omega))
      rw [hrec]
      omega

/-- C5: a hard drop descends by the greedy maximum: the applied offset
`d` collides one row further down, no offset up to `d` collides (so `d`
is the largest offset of the contiguous collision-free descent from the
current position), and the piece is then merged, swept and respawned
immediately with the gravity accumulator zeroed, bypassing the lock
delay. -/
theorem hardDrop_correct (rnd : Nat → List Nat) (s : GState)
    (hgo : s.gameOver = false) (hp : s.paused = false)
    (y0 x0 : Nat) (hy : y0 < s.matrix.length)
    (hx : x0 < (s.matrix.getD y0 []).length)
    (hocc : (s.matrix.getD y0 []).getD x0 0 ≠ 0)
    (hcur : collide s.arena s.px s.py s.matrix = false) :
    ∃ d : Nat,
      dropOffset s = d ∧
      collide s.arena s.px (s.py + (d : Nat) + 1) s.matrix = true ∧
      (∀ e : Nat, e ≤ d → collide s.arena s.px (s.py + (e : Nat)) s.matrix = false) ∧
      hardDrop rnd s =
        { spawnPlayer rnd (sweepScore (mergeState { s with py := s.py + (d : Nat) }))
            with dropAcc := 0 } := by
  have hfar : ∀ e : Nat, (ROWS : Int) ≤ s.py + e + 1 →
      collide s.arena s.px (s.py + (e : Nat) + 1) s.matrix = true := by
    intro e he
    exact (collide_correct s.arena s.px (s.py + (e : Nat) + 1) s.matrix).1.mpr
      ⟨y0, x0, hy, hx, hocc, Or.inr (Or.inr (Or.inl (by omega)))⟩
  have hex : ∃ k : Nat, collide s.arena s.px (s.py + (k : Nat) + 1) s.matrix = true := by
    refine ⟨((ROWS : Int) - s.py).toNat, hfar _ (by omega)⟩
  classical
  let D := Nat.find hex
  have hDspec : collide s.arena s.px (s.py + (D : Nat) + 1) s.matrix = true :=
    Nat.find_spec hex
  have hDmin : ∀ j, j < D → collide s.arena s.px (s.py + (j : Nat) + 1) s.matrix = false := by
    intro j hj
    have := Nat.find_min hex hj
    simpa using this
  have hDle : D ≤ ((ROWS : Int) - s.py).toNat :=
    Nat.find_min' hex (hfar _ (by omega))
  have hDlt : D < ((ROWS : Int) - s.py).toNat + s.matrix.length + 1 := by omega
  have hoff : dropOffset s = D := by
    unfold dropOffset
    have := dropLoop_finds s (((ROWS : Int) - s.py).toNat + s.matrix.length + 1)
      0 D hDlt (by simpa using hDspec) (fun j hj => by simpa using hDmin j hj)
    simpa using this
  refine ⟨D, hoff, hDspec, ?_, ?_⟩
  · intro e he
    match e with
    | 0 => simpa using hcur
    | e + 1 =>
      have := hDmin e (by omega)
      rw [show ((e + 1 : Nat) : Int) = (e : Nat) + 1 from by push_cast; ring]
      rw [← add_assoc]
      exact this
  · simp only [hardDrop, hgo, hp, Bool.or_self, Bool.false_eq_true, if_false]
    rw [hoff]

theorem refillStep_arena (rnd : Nat → List Nat) (s : GState) :
    (refillStep rnd s).arena = s.arena := by
  unfold refillStep
  by_cases h : s.bag.length ≤ s.bagIdx <;> simp [h]

theorem refillStep_score (rnd : Nat → List Nat) (s : GState) :
    (refillStep rnd s).score = s.score := by
  unfold refillStep
  by_cases h : s.bag.length ≤ s.bagIdx <;> simp [h]

theorem refillLoop_arena (rnd : Nat → List Nat) :
    ∀ (fuel : Nat) (s : GState), (refillLoop rnd fuel s).arena = s.arena := by
  intro fuel
  induction fuel with
  | zero => intro s; rfl
  | succ fuel ih =>
    intro s
    simp only [refillLoop]
    by_cases h : s.queue.length < QUEUE_SIZE
    · rw [if_pos h]
      exact (ih (refillStep rnd s)).trans (refillStep_arena rnd s)
    · rw [if_neg h]

theorem refillLoop_score (rnd : Nat → List Nat) :
    ∀ (fuel : Nat) (s : GState), (refillLoop rnd fuel s).score = s.score := by
  intro fuel
  induction fuel with
  | zero => intro s; rfl
  | succ fuel ih =>
    intro s
    simp only [refillLoop]
    by_cases h : s.queue.length < QUEUE_SIZE
    · rw [if_pos h]
      exact (ih (refillStep rnd s)).trans (refillStep_score rnd s)
    · rw [if_neg h]

theorem spawnPlayer_arena (rnd : Nat → List Nat) (s : GState) :
    (spawnPlayer rnd s).arena = s.arena := by
  simp only [spawnPlayer, refillQueue]
  split <;> simp [refillLoop_arena]

theorem spawnPlayer_score (rnd : Nat → List Nat) (s : GState) :
    (spawnPlayer rnd s).score = s.score := by
  simp only [spawnPlayer, refillQueue]
  split <;> simp [refillLoop_score]

theorem resetGame_props (rnd : Nat → List Nat) (s : GState) :
    (resetGame rnd s).arena =
      s.arena.map (fun row => List.replicate row.length 0) ∧
    (resetGame rnd s).score = 0 := by
  constructor
  · simp only [resetGame, refillQueue]
    rw [spawnPlayer_arena]
    simp [refillLoop_arena]
  · simp only [resetGame, refillQueue]
    rw [spawnPlayer_score]

/-- C6: a spawn places the new piece at column
`floor(columns/2) - floor(shapeWidth/2)`, one row above the visible top
(`pos.y = -1`), and clears the hold-used flag, lock timer and ground
flag; when the spawn position immediately collides the game-over flag is
set and a reset is scheduled after the fixed 800 ms dwell; a game-over
state suppresses the whole simulation frame; and the fired reset clears
every board row to zeros and zeroes the score. -/
theorem spawn_correct :
    (∀ (rnd : Nat → List Nat) (s : GState),
      (spawnPlayer rnd s).py = -1 ∧
      (spawnPlayer rnd s).holdUsed = false ∧
      (spawnPlayer rnd s).lockTimer = 0 ∧
      (spawnPlayer rnd s).onGround = false ∧
      (spawnPlayer rnd s).px =
        ((COLS / 2 : Nat) : Int) -
          ((((spawnPlayer rnd s).matrix.headD []).length / 2 : Nat) : Int) ∧
      (collide (spawnPlayer rnd s).arena (spawnPlayer rnd s).px
          (spawnPlayer rnd s).py (spawnPlayer rnd s).matrix = true →
        (spawnPlayer rnd s).gameOver = true ∧
        (spawnPlayer rnd s).resetTimer = some 800)) ∧
    (∀ (rnd : Nat → List Nat) (delta : Rat) (soft dasLeft dasRight dasDue : Bool)
        (s : GState), s.gameOver = true →
      update rnd delta soft dasLeft dasRight dasDue s = s) ∧
    (∀ (rnd : Nat → List Nat) (elapsed : Rat) (s : GState),
      s.resetTimer = some 800 → 800 ≤ elapsed →
      (fireReset rnd elapsed s).arena =
        s.arena.map (fun row => List.replicate row.length 0) ∧
      (fireReset rnd elapsed s).score = 0) := by
  refine ⟨?_, ?_, ?_⟩
  · intro rnd s
    simp only [spawnPlayer, refillQueue]
    split
    · next hcol =>
      exact ⟨rfl, rfl, rfl, rfl, rfl, fun _ => ⟨rfl, rfl⟩⟩
    · next hcol =>
      exact ⟨rfl, rfl, rfl, rfl, rfl, fun h => absurd h hcol⟩
  · intro rnd delta soft dasLeft dasRight dasDue s hgo
    simp only [update]
    rw [if_neg (by simp [hgo])]
  · intro rnd elapsed s hrt helapsed
    simp only [fireReset, hrt]
    rw [if_pos helapsed]
    exact resetGame_props rnd s

theorem gravLoop_resting (ms : Rat) (fuel : Nat) (s : GState)
    (hg : s.onGround = true)
    (hc : collide s.arena s.px (s.py + 1) s.matrix = true) :
    ∃ q, gravLoop ms fuel s = { s with dropAcc := q } := by
  cases fuel with
  | zero => exact ⟨s.dropAcc, rfl⟩
  | succ fuel =>
    by_cases hacc : ms ≤ s.dropAcc
    · refine ⟨s.dropAcc - ms, ?_⟩
      simp only [gravLoop]
      rw [if_pos hacc, if_pos hc, hg]
      simp
    · refine ⟨s.dropAcc, ?_⟩
      simp only [gravLoop]
      rw [if_neg hacc]

/-- C3: with no DAS repeat due, a piece resting on a supporting surface
(`collide` one row below) accumulates exactly the frame delta into its
lock-delay counter and is not locked while the counter stays below the
500 ms `LOCK_DELAY` (board, shape, and position are untouched); a
successful lateral `moveOnce` resets the lock-delay counter to zero (and
clears the ground flag), so a piece that rested for 499 ms and then moved
starts a fresh window; and once the counter reaches the threshold the
frame locks the piece — it is merged into the board, the board is swept,
and a new piece spawns, in that order, with the timers cleared. -/
theorem lock_delay_correct :
    (∀ (rnd : Nat → List Nat) (delta : Rat) (soft dasDue : Bool) (s : GState),
      s.paused = false → s.gameOver = false → s.onGround = true →
      collide s.arena s.px (s.py + 1) s.matrix = true →
      s.lockTimer + delta < LOCK_DELAY →
      (update rnd delta soft false false dasDue s).arena = s.arena ∧
      (update rnd delta soft false false dasDue s).matrix = s.matrix ∧
      (update rnd delta soft false false dasDue s).px = s.px ∧
      (update rnd delta soft false false dasDue s).py = s.py ∧
      (update rnd delta soft false false dasDue s).onGround = true ∧
      (update rnd delta soft false false dasDue s).lockTimer =
        s.lockTimer + delta) ∧
    (∀ (dir : Int) (s : GState),
      s.paused = false → s.gameOver = false →
      collide s.arena (s.px + dir) s.py s.matrix = false →
      moveOnce dir s =
        { s with px := s.px + dir, lockTimer := 0, onGround := false }) ∧
    (∀ (rnd : Nat → List Nat) (delta : Rat) (soft dasDue : Bool) (s : GState),
      s.paused = false → s.gameOver = false → s.onGround = true →
      collide s.arena s.px (s.py + 1) s.matrix = true →
      LOCK_DELAY ≤ s.lockTimer + delta →
      ∃ q : Rat,
        update rnd delta soft false false dasDue s =
          { spawnPlayer rnd (sweepScore (mergeState
              { s with dropAcc := q, lockTimer := s.lockTimer + delta })) with
            dropAcc := 0, lockTimer := 0, onGround := false }) := by
  refine ⟨?_, ?_, ?_⟩
  · intro rnd delta soft dasDue s hp hgo hg hc hlt
    obtain ⟨q, hq⟩ := gravLoop_resting
      (1000 / max (1 / 1000)
        (if soft then s.gravityCPS * SOFT_DROP_MULT else s.gravityCPS))
      (gravFuel (s.dropAcc + delta)
        (1000 / max (1 / 1000)
          (if soft then s.gravityCPS * SOFT_DROP_MULT else s.gravityCPS)))
      { s with dropAcc := s.dropAcc + delta } hg hc
    have hq' : gravRun
        (1000 / max (1 / 1000)
          (if soft then s.gravityCPS * SOFT_DROP_MULT else s.gravityCPS))
        { s with dropAcc := s.dropAcc + delta } =
        { s with dropAcc := q } := hq
    simp only [update, hq']
    simp [hp, hgo, hg, not_le.mpr hlt]
  · intro dir s hp hgo hcol
    simp only [moveOnce, hp, hgo, hcol]
    simp
  · intro rnd delta soft dasDue s hp hgo hg hc hge
    obtain ⟨q, hq⟩ := gravLoop_resting
      (1000 / max (1 / 1000)
        (if soft then s.gravityCPS * SOFT_DROP_MULT else s.gravityCPS))
      (gravFuel (s.dropAcc + delta)
        (1000 / max (1 / 1000)
          (if soft then s.gravityCPS * SOFT_DROP_MULT else s.gravityCPS)))
      { s with dropAcc := s.dropAcc + delta } hg hc
    have hq' : gravRun
        (1000 / max (1 / 1000)
          (if soft then s.gravityCPS * SOFT_DROP_MULT else s.gravityCPS))
        { s with dropAcc := s.dropAcc + delta } =
        { s with dropAcc := q } := hq
    refine ⟨q, ?_⟩
    simp only [update, hq']
    simp only [lockNow, mergeState, sweepScore]
    simp [hp, hgo, hg, hge]

theorem getD_map_f (f : Nat → Nat) (l : List Nat) (x : Nat) (hx : x < l.length) :
    (l.map f).getD x 0 = f (l.getD x 0) := by
  rw [List.getD_eq_getElem?_getD, List.getElem?_map, List.getD_eq_getElem?_getD,
    List.getElem?_eq_getElem hx]
  rfl

theorem stamp_cell (t : Piece) (y x : Nat) :
    ((stamp t).getD y []).getD x 0 ≠ 0 →
    ((stamp t).getD y []).getD x 0 = pieceId t := by
  intro h
  by_cases hy : y < (shapeOf t).length
  · have hrow : (stamp t).getD y [] =
        List.map (fun v => if v ≠ 0 then pieceId t else v) ((shapeOf t).getD y []) := by
      unfold stamp
      rw [List.getD_eq_getElem?_getD, List.getElem?_map,
        List.getD_eq_getElem?_getD (shapeOf t), List.getElem?_eq_getElem hy]
      rfl
    rw [hrow] at h ⊢
    by_cases hx : x < ((shapeOf t).getD y []).length
    · rw [getD_map_f _ _ x hx] at h ⊢
      by_cases hv : ((shapeOf t).getD y []).getD x 0 ≠ 0
      · rw [if_pos hv]
      · rw [if_neg hv] at h
        exact absurd h (by simpa using hv)
    · rw [List.getD_eq_getElem?_getD,
        List.getElem?_eq_none (by simpa using Nat.le_of_not_lt hx)] at h
      simp at h
  · have hrow : (stamp t).getD y [] = [] := by
      rw [List.getD_eq_getElem?_getD,
        List.getElem?_eq_none (by simpa [stamp] using Nat.le_of_not_lt hy)]
      rfl
    rw [hrow] at h
    simp at h

theorem collide_correct_witness :
    (collide emptyBoard 4 (-2) (stamp .O) = true ↔
      collideSpec emptyBoard 4 (-2) (stamp .O)) ∧
    collide emptyBoard 4 (-2) (stamp .O) = false :=
  ⟨(collide_correct emptyBoard 4 (-2) (stamp .O)).1,
   (collide_correct emptyBoard 4 (-2) (stamp .O)).2 (by
      intro y x hy hx hocc
      have hC : (COLS : Int) = 12 := rfl
      have hR : (ROWS : Int) = 20 := rfl
      have hy2 : y < 2 := by simpa [stamp, shapeOf] using hy
      have hx2 : x < 2 := by
        interval_cases y <;> simpa [stamp, shapeOf] using hx
      refine ⟨by omega, by omega, by omega, fun hge => by omega⟩)⟩

theorem sweep_correct_witness :
    (sweepArena demoBoard =
      (List.replicate (demoBoard.countP isFullRow) emptyRow ++
        (demoBoard.filter fun r => !isFullRow r),
       demoBoard.countP isFullRow) ∧
     (∀ r : List Nat, r.length = COLS →
       (isFullRow r = true ↔ ∀ x, x < COLS → r.getD x 0 ≠ 0))) ∧
    demoBoard.countP isFullRow = 2 ∧ demoBoard.length = 20 :=
  ⟨sweep_correct demoBoard (by decide), by decide, by decide⟩

theorem lock_delay_correct_witness :
    ((update (fun _ => []) 499 false false false false restingState).arena =
        restingState.arena ∧
     (update (fun _ => []) 499 false false false false restingState).matrix =
        restingState.matrix ∧
     (update (fun _ => []) 499 false false false false restingState).px =
        restingState.px ∧
     (update (fun _ => []) 499 false false false false restingState).py =
        restingState.py ∧
     (update (fun _ => []) 499 false false false false restingState).onGround =
        true ∧
     (update (fun _ => []) 499 false false false false restingState).lockTimer =
        restingState.lockTimer + 499) ∧
    moveOnce 1 restingState =
      { restingState with px := restingState.px + 1, lockTimer := 0,
                          onGround := false } ∧
    (∃ q : Rat,
      update (fun _ => []) 500 false false false false restingState =
        { spawnPlayer (fun _ => []) (sweepScore (mergeState
            { restingState with
                dropAcc := q,
                lockTimer := restingState.lockTimer + 500 })) with
          dropAcc := 0, lockTimer := 0, onGround := false }) :=
  ⟨lock_delay_correct.1 (fun _ => []) 499 false false restingState rfl rfl rfl
      (by decide) (by norm_num [LOCK_DELAY, restingState]),
   lock_delay_correct.2.1 1 restingState rfl rfl (by decide),
   lock_delay_correct.2.2 (fun _ => []) 500 false false restingState rfl rfl rfl
      (by decide) (by norm_num [LOCK_DELAY, restingState])⟩

theorem hardDrop_correct_witness :
    (∃ d : Nat,
      dropOffset dropState = d ∧
      collide dropState.arena dropState.px (dropState.py + (d : Nat) + 1)
        dropState.matrix = true ∧
      (∀ e : Nat, e ≤ d → collide dropState.arena dropState.px
        (dropState.py + (e : Nat)) dropState.matrix = false) ∧
      hardDrop (fun _ => []) dropState =
        { spawnPlayer (fun _ => []) (sweepScore (mergeState
            { dropState with py := dropState.py + (d : Nat) })) with
          dropAcc := 0 }) ∧
    dropOffset dropState = 18 :=
  ⟨hardDrop_correct (fun _ => []) dropState rfl rfl 0 1 (by decide) (by decide)
      (by decide) (by decide), by decide⟩

theorem spawn_correct_witness :
    ((spawnPlayer (fun _ => []) stuckState).py = -1 ∧
     (spawnPlayer (fun _ => []) stuckState).holdUsed = false ∧
     (spawnPlayer (fun _ => []) stuckState).lockTimer = 0 ∧
     (spawnPlayer (fun _ => []) stuckState).onGround = false ∧
     (spawnPlayer (fun _ => []) stuckState).px =
       ((COLS / 2 : Nat) : Int) -
         ((((spawnPlayer (fun _ => []) stuckState).matrix.headD []).length / 2 :
           Nat) : Int) ∧
     (spawnPlayer (fun _ => []) stuckState).gameOver = true ∧
     (spawnPlayer (fun _ => []) stuckState).resetTimer = some 800) ∧
    update (fun _ => []) 16 false false false false overState = overState ∧
    ((fireReset (fun _ => []) 800 pendingState).arena =
      pendingState.arena.map (fun row => List.replicate row.length 0) ∧
     (fireReset (fun _ => []) 800 pendingState).score = 0) := by
  obtain ⟨h1, h2, h3⟩ := spawn_correct
  obtain ⟨a1, a2, a3, a4, a5, a6⟩ := h1 (fun _ => []) stuckState
  obtain ⟨g1, g2⟩ := a6 (by decide)
  exact ⟨⟨a1, a2, a3, a4, a5, g1, g2⟩,
    h2 (fun _ => []) 16 false false false false overState rfl,
    h3 (fun _ => []) 800 pendingState rfl (by norm_num)⟩

theorem score_correct_witness :
    (lineScores = [0, 40, 100, 300, 1200] ∧
     ((sweepScore scoreState).score =
        scoreState.score +
          lineScores.getD (scoreState.arena.countP isFullRow) 0 *
            (scoreState.level + 1) ∧
      (sweepScore scoreState).lines =
        scoreState.lines + scoreState.arena.countP isFullRow ∧
      (sweepScore scoreState).level =
        (scoreState.lines + scoreState.arena.countP isFullRow) / 10)) ∧
    (sweepScore scoreState).score = 40 ∧
    (sweepScore scoreState1).score = 80 ∧
    (sweepScore scoreState4).score = 1200 :=
  ⟨⟨(score_correct scoreState (by decide)).1,
    (score_correct scoreState (by decide)).2 (by decide)⟩,
   by decide, by decide, by decide⟩

theorem rotate_four_witness :
    rotateMatrix (rotateMatrix (rotateMatrix (rotateMatrix (shapeOf .T) 1) 1) 1) 1 =
      shapeOf .T ∧
    rotateMatrix (rotateMatrix (rotateMatrix
      (rotateMatrix (shapeOf .I) (-1)) (-1)) (-1)) (-1) = shapeOf .I :=
  ⟨rotate_four (shapeOf .T) 1 3 rfl (by decide),
   rotate_four (shapeOf .I) (-1) 4 rfl (by decide)⟩

theorem rotate_kicks_correct_witness :
    rotatePlayer 1 blockedState = blockedState ∧
    rotatePlayer 1 kickState =
      { kickState with matrix := rotateMatrix kickState.matrix 1,
                       px := kickState.px + kickOffsets.getD 1 0,
                       lockTimer := 0, onGround := false } :=
  ⟨rotate_kicks_correct.1 blockedState 1 (by decide),
   rotate_kicks_correct.2 kickState 1 1 (by decide) (by decide) (by decide)⟩

theorem merge_correct_witness :
    (mergeToArena emptyBoard 4 18 (stamp .O)).length = ROWS ∧
    (∀ r ∈ mergeToArena emptyBoard 4 18 (stamp .O), r.length = COLS) ∧
    (∀ i j, i < ROWS → j < COLS →
      getC (mergeToArena emptyBoard 4 18 (stamp .O)) i j =
        if 0 ≤ (i : Int) - 18 ∧ (i : Int) - 18 < ((stamp .O).length : Int) ∧
            0 ≤ (j : Int) - 4 ∧
            (j : Int) - 4 <
              (((stamp .O).getD ((i : Int) - 18).toNat []).length : Int) ∧
            ((stamp .O).getD ((i : Int) - 18).toNat []).getD
              ((j : Int) - 4).toNat 0 ≠ 0
        then ((stamp .O).getD ((i : Int) - 18).toNat []).getD
              ((j : Int) - 4).toNat 0
        else getC emptyBoard i j) ∧
    (∀ i j, i < ROWS → j < COLS →
      getC (mergeToArena emptyBoard 4 18 (stamp .O)) i j ≠
          getC emptyBoard i j →
      getC (mergeToArena emptyBoard 4 18 (stamp .O)) i j = pieceId .O) := by
  have h := merge_correct emptyBoard 4 18 (stamp .O) (pieceId .O)
    (by decide) (by decide)
  exact ⟨h.1, h.2.1, h.2.2.1, h.2.2.2 (fun y x => stamp_cell .O y x)⟩

end Tetris

